import Mathlib

/-!
Verification of `godag.py` (repository Aluriak/godag).

The module converts a gene-ontology DAG into a predecessor-to-successor
mapping and serializes it as JSON or tab-delimited text.  We give a shallow
embedding of its pure core:

* Python term records (as produced by the external obo parser) become the
  inductive type `GOTerm` with fields `id`, `name`, `parents`, `is_obsolete`.
* Python dicts become insertion-ordered association lists; assignment
  (`dictUpdate`) overwrites the first occurrence in place or appends a fresh
  entry at the end, exactly like CPython dicts.
* Python sets become duplicate-free insertion-ordered lists (`setInsert`);
  `frozenset(s)` copies the contents and is therefore the identity here.
* A function that can raise an uncaught Python exception on some path
  returns `Option`, with `none` for the raising paths.

The sentinel-key parameters `obsoletes_key` and `roots_key` default to
`None` in the source, so they are embedded as `Option String`; dictionary
keys of the built graph are likewise `Option String` (term-derived keys are
always `some`).
-/

/-- A term record as consumed from the external obo parser: identifier,
display name, parent term references and the obsolescence flag. -/
inductive GOTerm where
  | mk (id : String) (name : String) (parents : List GOTerm) (is_obsolete : Bool)

def GOTerm.id : GOTerm → String
  | .mk i _ _ _ => i

def GOTerm.name : GOTerm → String
  | .mk _ n _ _ => n

def GOTerm.parents : GOTerm → List GOTerm
  | .mk _ _ p _ => p

def GOTerm.is_obsolete : GOTerm → Bool
  | .mk _ _ _ o => o

/-- Python dict read access: value stored under key `k`, if present. -/
def dictGet {κ α : Type} [DecidableEq κ] : List (κ × α) → κ → Option α
  | [], _ => none
  | p :: rest, k => if p.1 = k then some p.2 else dictGet rest k

/-- Python dict assignment `d[k] = v`: overwrite the first entry with key
`k` in place, or append a fresh entry at the end. -/
def dictUpdate {κ α : Type} [DecidableEq κ] : List (κ × α) → κ → α → List (κ × α)
  | [], k, v => [(k, v)]
  | p :: rest, k, v => if p.1 = k then (k, v) :: rest else p :: dictUpdate rest k v

/-- Python set insertion `s.add(x)` on a duplicate-free list. -/
def setInsert (s : List String) (x : String) : List String :=
  if x ∈ s then s else s ++ [x]

/-- The adjacency mapping built by `godag_as_graph`: keys are either
term-derived (`some ident`) or the sentinel-key arguments (possibly `none`,
the Python default). -/
abbrev Graph := List (Option String × List String)

/-- Value of `graph[k]` seen as a defaultdict over sets: missing keys read
as the empty set. -/
def dictGetD (g : Graph) (k : Option String) : List String :=
  (dictGet g k).getD []

/-- The nested helper `identifier` of `godag_as_graph` (src line 60):
choose the id or the display name as key material. -/
def identifier (use_id : Bool) (goterm : GOTerm) : String :=
  if use_id then goterm.id else goterm.name

/-- `graph[identifier(parent)].add(identifier(annot))` on the defaultdict
(src line 66): fetch the successor set (empty when absent), insert, store. -/
def graphAdd (g : Graph) (k : Option String) (x : String) : Graph :=
  dictUpdate g k (setInsert (dictGetD g k) x)

/-- One iteration of the main loop of `godag_as_graph` (src lines 64-71):
record one edge per parent, then classify parentless terms as obsolete or
root.  State is `(graph, obsoletes, roots)`. -/
def processTerm (use_id : Bool) (st : Graph × List String × List String)
    (annot : GOTerm) : Graph × List String × List String :=
  let graph := annot.parents.foldl
    (fun g parent => graphAdd g (some (identifier use_id parent)) (identifier use_id annot)) st.1
  if annot.parents.length = 0 then
    if annot.is_obsolete then
      (graph, setInsert st.2.1 (identifier use_id annot), st.2.2)
    else
      (graph, st.2.1, setInsert st.2.2 (identifier use_id annot))
  else
    (graph, st.2.1, st.2.2)

/-- The whole loop of `godag_as_graph`, from the empty graph and empty
obsolete and root sets (src lines 62-71). -/
def buildState (use_id : Bool) (obo : List GOTerm) : Graph × List String × List String :=
  obo.foldl (processTerm use_id) (([] : Graph), ([] : List String), ([] : List String))

/-- The obsolete set computed by `godag_as_graph`. -/
def obsoletesOf (use_id : Bool) (obo : List GOTerm) : List String :=
  (buildState use_id obo).2.1

/-- The root set computed by `godag_as_graph`. -/
def rootsOf (use_id : Bool) (obo : List GOTerm) : List String :=
  (buildState use_id obo).2.2

/-- Embedding of `godag_as_graph` (src lines 49-88).  After the loop, when
`use_special_key` holds, `graph[obsoletes_key] = frozenset(obsoletes)` is
written first and `graph[roots_key] = frozenset(roots)` second, so the root
set wins when the two sentinel keys are equal.  Two paths of the source
raise an uncaught NameError before returning, embedded as `none`:
the summary print of line 76 reads the loop variable `count`, which is
never bound when `obo` is empty; and line 85 reads the misspelled name
`Obsoletes_key`, reached whenever `use_special_key` holds and the two
sentinel keys differ. -/
def godag_as_graph (obo : List GOTerm) (use_id : Bool)
    (obsoletes_key roots_key : Option String) (use_special_key : Bool) : Option Graph :=
  let st := buildState use_id obo
  let graph :=
    if use_special_key then
      dictUpdate (dictUpdate st.1 obsoletes_key st.2.1) roots_key st.2.2
    else st.1
  if obo.isEmpty then none
  else if use_special_key ∧ obsoletes_key ≠ roots_key then none
  else some graph

/-- One iteration of the loop of `godag_as_idname` (src lines 39-42): bump
the doublon counter when the identifier is already present, then store
`idname[annot.id] = annot.name`. -/
def idnameStep (st : List (String × String) × Nat) (annot : GOTerm) :
    List (String × String) × Nat :=
  (dictUpdate st.1 annot.id annot.name,
   if (dictGet st.1 annot.id).isSome then st.2 + 1 else st.2)

/-- Embedding of `godag_as_idname` (src lines 35-46).  The source returns
only the mapping and reports the doublon counter via print; the embedding
returns the pair so the counter is observable.  `count` is the final value
of the `enumerate` counter, i.e. the number of records.  Two failure paths
are embedded as `none`: on the empty input the loop never runs, so the
`assert` line raises NameError reading the unbound `count`; and a failing
`assert count - count_doublon == len(idname)` would raise AssertionError. -/
def godag_as_idname (obo : List GOTerm) : Option (List (String × String) × Nat) :=
  let st := obo.foldl idnameStep (([] : List (String × String)), 0)
  if obo.isEmpty then none
  else if (obo.length : Int) - st.2 = st.1.length then some st
  else none

/-- Sample term: no parents, not obsolete (a root). -/
def termX : GOTerm := .mk "X" "x" [] false

/-- Sample term: single parent `termX`. -/
def termY : GOTerm := .mk "Y" "y" [termX] false

/-- Sample term: no parents, obsolete. -/
def termZ : GOTerm := .mk "Z" "z" [] true

/-- Sample record for the duplicate-identifier scenario. -/
def termG1a : GOTerm := .mk "G1" "alpha" [] false

/-- Sample record for the duplicate-identifier scenario, same id. -/
def termG1b : GOTerm := .mk "G1" "beta" [] false

/-! ### Dictionary and set lemmas -/

theorem dictGet_dictUpdate_self {κ α : Type} [DecidableEq κ]
    (g : List (κ × α)) (k : κ) (v : α) :
    dictGet (dictUpdate g k v) k = some v := by
  induction g with
  | nil => simp [dictUpdate, dictGet]
  | cons p rest ih =>
      by_cases hp : p.1 = k
      · simp [dictUpdate, hp, dictGet]
      · simp [dictUpdate, hp, dictGet, ih]

theorem dictGet_dictUpdate_ne {κ α : Type} [DecidableEq κ]
    (g : List (κ × α)) (k k' : κ) (v : α) (h : k' ≠ k) :
    dictGet (dictUpdate g k v) k' = dictGet g k' := by
  induction g with
  | nil => simp [dictUpdate, dictGet, Ne.symm h]
  | cons p rest ih =>
      by_cases hp : p.1 = k
      · simp [dictUpdate, hp, dictGet, Ne.symm h, ih]
      · by_cases hq : p.1 = k'
        · simp [dictUpdate, hp, dictGet, hq, h]
        · simp [dictUpdate, hp, dictGet, hq, ih]

theorem mem_setInsert (s : List String) (x y : String) :
    y ∈ setInsert s x ↔ y ∈ s ∨ y = x := by
  by_cases h : x ∈ s
  · simp only [setInsert, if_pos h]
    constructor
    · exact Or.inl
    · rintro (hy | rfl)
      · exact hy
      · exact h
  · simp [setInsert, h]

theorem mem_dictGetD_graphAdd (g : Graph) (k : Option String) (x : String)
    (k' : Option String) (y : String) :
    y ∈ dictGetD (graphAdd g k x) k' ↔ y ∈ dictGetD g k' ∨ (k' = k ∧ y = x) := by
  unfold graphAdd
  by_cases h : k' = k
  · subst h
    unfold dictGetD
    rw [dictGet_dictUpdate_self]
    simp [mem_setInsert, dictGetD]
  · unfold dictGetD
    rw [dictGet_dictUpdate_ne _ _ _ _ h]
    simp [h]

/-! ### Claim theorems: evaluation claims -/

/-- C1: the claim says that with sentinel injection enabled and distinct
sentinel keys `godag_as_graph` returns normally with both sentinel entries.
The code instead raises an uncaught NameError on that very path: the
summary print of src line 85 reads the misspelled name `Obsoletes_key`.
This theorem evaluates the embedding at the failing input (one root term,
`roots_key="ROOT"`, `obsoletes_key="OBS"`): nothing is returned. -/
theorem godag_as_graph_distinct_sentinel_keys_raise :
    godag_as_graph [termX] true (some "OBS") (some "ROOT") true = none := by
  decide

/-- C2: the claim says `godag_as_idname` returns normally on every input
including the empty collection.  On the empty collection the loop body
never runs, so the `enumerate` counter `count` is never bound and the
assert of src line 45 raises an uncaught NameError.  This theorem
evaluates the embedding at the failing input. -/
theorem godag_as_idname_empty_raises : godag_as_idname [] = none := rfl

/-- C3 counterexample: with input `[X]` (no parents, not obsolete),
sentinel injection enabled and `roots_key="ROOT"`, the default
`obsoletes_key` is `None`, which differs from `"ROOT"`, so the call raises
NameError (misspelled `Obsoletes_key`, src line 85) and does not return
the mapping `{"ROOT": ["X"]}` the claim expects. -/
theorem scenarioA_default_obsoletes_counterexample :
    godag_as_graph [termX] true none (some "ROOT") true = none ∧
    godag_as_graph [termX] true none (some "ROOT") true ≠ some [(some "ROOT", ["X"])] := by
  refine ⟨by decide, ?_⟩
  decide

/-- C3 amended: with the single root term `X`, `godag_as_graph` returns
the empty mapping when sentinel injection is disabled; with injection
enabled and `roots_key = obsoletes_key = "ROOT"` it returns exactly
`{"ROOT": ["X"]}`; but with the default `obsoletes_key` (`None`) the call
raises NameError instead of returning. -/
theorem scenarioA_amended :
    godag_as_graph [termX] true none none false = some [] ∧
    godag_as_graph [termX] true (some "ROOT") (some "ROOT") true
      = some [(some "ROOT", ["X"])] ∧
    godag_as_graph [termX] true none (some "ROOT") true = none := by
  refine ⟨by decide, by decide, by decide⟩

/-- C9: on the empty input collection `godag_as_graph` raises an uncaught
NameError (the summary print of src line 76 reads the `enumerate` counter
`count`, never bound when the loop body never runs) instead of returning an
empty mapping, whatever the configuration flags are. -/
theorem godag_as_graph_empty_raises :
    ∀ (use_id : Bool) (obsoletes_key roots_key : Option String) (use_special_key : Bool),
      godag_as_graph [] use_id obsoletes_key roots_key use_special_key = none :=
  fun _ _ _ _ => rfl

/-! ### Graph-builder characterization -/

theorem mem_dictGetD_addEdges (use_id : Bool) (c : String) :
    ∀ (ps : List GOTerm) (g : Graph) (k : Option String) (y : String),
      y ∈ dictGetD (ps.foldl (fun g2 p => graphAdd g2 (some (identifier use_id p)) c) g) k ↔
        y ∈ dictGetD g k ∨ ∃ p ∈ ps, some (identifier use_id p) = k ∧ y = c := by
  intro ps
  induction ps with
  | nil => simp
  | cons p ps ih =>
      intro g k y
      rw [List.foldl_cons, ih, mem_dictGetD_graphAdd]
      constructor
      · rintro ((hy | ⟨rfl, rfl⟩) | ⟨q, hq, hk, rfl⟩)
        · exact Or.inl hy
        · exact Or.inr ⟨p, List.mem_cons_self _ _, rfl, rfl⟩
        · exact Or.inr ⟨q, List.mem_cons_of_mem _ hq, hk, rfl⟩
      · rintro (hy | ⟨q, hq, hk, rfl⟩)
        · exact Or.inl (Or.inl hy)
        · rcases List.mem_cons.mp hq with rfl | hq
          · exact Or.inl (Or.inr ⟨hk.symm, rfl⟩)
          · exact Or.inr ⟨q, hq, hk, rfl⟩

theorem processTerm_fst (use_id : Bool) (st : Graph × List String × List String)
    (T : GOTerm) :
    (processTerm use_id st T).1 = T.parents.foldl
      (fun g parent => graphAdd g (some (identifier use_id parent)) (identifier use_id T)) st.1 := by
  unfold processTerm
  split
  · split <;> rfl
  · rfl

theorem processTerm_snd_of_parents_ne (use_id : Bool)
    (st : Graph × List String × List String) (T : GOTerm) (h : T.parents ≠ []) :
    (processTerm use_id st T).2 = st.2 := by
  unfold processTerm
  rw [if_neg]
  simpa [List.length_eq_zero] using h

theorem processTerm_roots_mem (use_id : Bool) (st : Graph × List String × List String)
    (T : GOTerm) (x : String) :
    x ∈ (processTerm use_id st T).2.2 ↔
      x ∈ st.2.2 ∨ (T.parents = [] ∧ T.is_obsolete = false ∧ x = identifier use_id T) := by
  unfold processTerm
  by_cases h : T.parents.length = 0
  · have hp : T.parents = [] := List.length_eq_zero.mp h
    by_cases ho : T.is_obsolete
    · simp [h, ho, hp]
    · simp [h, ho, hp, mem_setInsert]
  · have hp : T.parents ≠ [] := fun he => h (by simp [he])
    simp [h, hp]

theorem processTerm_obsoletes_mem (use_id : Bool) (st : Graph × List String × List String)
    (T : GOTerm) (x : String) :
    x ∈ (processTerm use_id st T).2.1 ↔
      x ∈ st.2.1 ∨ (T.parents = [] ∧ T.is_obsolete = true ∧ x = identifier use_id T) := by
  unfold processTerm
  by_cases h : T.parents.length = 0
  · have hp : T.parents = [] := List.length_eq_zero.mp h
    by_cases ho : T.is_obsolete
    · simp [h, ho, hp, mem_setInsert]
    · simp [h, ho, hp]
  · have hp : T.parents ≠ [] := fun he => h (by simp [he])
    simp [h, hp]

theorem foldl_graph_mem (use_id : Bool) :
    ∀ (l : List GOTerm) (st : Graph × List String × List String)
      (k : Option String) (y : String),
      y ∈ dictGetD (l.foldl (processTerm use_id) st).1 k ↔
        y ∈ dictGetD st.1 k ∨
          ∃ T ∈ l, ∃ p ∈ T.parents, some (identifier use_id p) = k ∧ y = identifier use_id T := by
  intro l
  induction l with
  | nil => simp
  | cons T l ih =>
      intro st k y
      rw [List.foldl_cons, ih, processTerm_fst, mem_dictGetD_addEdges]
      constructor
      · rintro ((hy | ⟨p, hp, hk, rfl⟩) | ⟨S, hS, p, hp, hk, rfl⟩)
        · exact Or.inl hy
        · exact Or.inr ⟨T, List.mem_cons_self _ _, p, hp, hk, rfl⟩
        · exact Or.inr ⟨S, List.mem_cons_of_mem _ hS, p, hp, hk, rfl⟩
      · rintro (hy | ⟨S, hS, p, hp, hk, rfl⟩)
        · exact Or.inl (Or.inl hy)
        · rcases List.mem_cons.mp hS with rfl | hS
          · exact Or.inl (Or.inr ⟨p, hp, hk, rfl⟩)
          · exact Or.inr ⟨S, hS, p, hp, hk, rfl⟩

theorem foldl_roots_mem (use_id : Bool) :
    ∀ (l : List GOTerm) (st : Graph × List String × List String) (x : String),
      x ∈ (l.foldl (processTerm use_id) st).2.2 ↔
        x ∈ st.2.2 ∨
          ∃ T ∈ l, T.parents = [] ∧ T.is_obsolete = false ∧ x = identifier use_id T := by
  intro l
  induction l with
  | nil => simp
  | cons T l ih =>
      intro st x
      rw [List.foldl_cons, ih, processTerm_roots_mem]
      constructor
      · rintro ((hx | hT) | ⟨S, hS, hs⟩)
        · exact Or.inl hx
        · exact Or.inr ⟨T, List.mem_cons_self _ _, hT⟩
        · exact Or.inr ⟨S, List.mem_cons_of_mem _ hS, hs⟩
      · rintro (hx | ⟨S, hS, hs⟩)
        · exact Or.inl (Or.inl hx)
        · rcases List.mem_cons.mp hS with rfl | hS
          · exact Or.inl (Or.inr hs)
          · exact Or.inr ⟨S, hS, hs⟩

theorem foldl_obsoletes_mem (use_id : Bool) :
    ∀ (l : List GOTerm) (st : Graph × List String × List String) (x : String),
      x ∈ (l.foldl (processTerm use_id) st).2.1 ↔
        x ∈ st.2.1 ∨
          ∃ T ∈ l, T.parents = [] ∧ T.is_obsolete = true ∧ x = identifier use_id T := by
  intro l
  induction l with
  | nil => simp
  | cons T l ih =>
      intro st x
      rw [List.foldl_cons, ih, processTerm_obsoletes_mem]
      constructor
      · rintro ((hx | hT) | ⟨S, hS, hs⟩)
        · exact Or.inl hx
        · exact Or.inr ⟨T, List.mem_cons_self _ _, hT⟩
        · exact Or.inr ⟨S, List.mem_cons_of_mem _ hS, hs⟩
      · rintro (hx | ⟨S, hS, hs⟩)
        · exact Or.inl (Or.inl hx)
        · rcases List.mem_cons.mp hS with rfl | hS
          · exact Or.inl (Or.inr hs)
          · exact Or.inr ⟨S, hS, hs⟩

/-- Shape of a successful `godag_as_graph` call: the input was non-empty,
and either injection was off and the raw edge graph is returned, or it was
on with equal sentinel keys and both sentinel writes landed on that key. -/
theorem godag_as_graph_some_shape (obo : List GOTerm) (use_id : Bool)
    (obsoletes_key roots_key : Option String) (use_special_key : Bool) (g : Graph)
    (h : godag_as_graph obo use_id obsoletes_key roots_key use_special_key = some g) :
    obo ≠ [] ∧
      ((use_special_key = false ∧ g = (buildState use_id obo).1) ∨
       (use_special_key = true ∧ obsoletes_key = roots_key ∧
        g = dictUpdate (dictUpdate (buildState use_id obo).1 obsoletes_key
              (obsoletesOf use_id obo)) roots_key (rootsOf use_id obo))) := by
  unfold godag_as_graph at h
  by_cases he : obo.isEmpty
  · simp [he] at h
  · have hne : obo ≠ [] := by simpa [List.isEmpty_iff] using he
    refine ⟨hne, ?_⟩
    cases usk : use_special_key with
    | false =>
        simp [he, usk] at h
        exact Or.inl ⟨rfl, h.symm⟩
    | true =>
        by_cases hk : obsoletes_key = roots_key
        · simp [he, usk, hk] at h
          exact Or.inr ⟨rfl, hk, by rw [← h, hk]; rfl⟩
        · simp [he, usk, hk] at h

/-! ### Claim theorems: graph builder -/

/-- C4: when sentinel injection is enabled and both sentinel keys are the
same key, a successful `godag_as_graph` call stores exactly the frozen
root set under that shared key (the obsolete write is overwritten by the
later root write), even when the obsolete set is non-empty. -/
theorem sentinel_collision_roots_win (obo : List GOTerm) (use_id : Bool)
    (k : Option String) (g : Graph)
    (h : godag_as_graph obo use_id k k true = some g) :
    dictGet g k = some (rootsOf use_id obo) := by
  rcases godag_as_graph_some_shape _ _ _ _ _ _ h with ⟨-, (⟨hf, -⟩ | ⟨-, -, hg⟩)⟩
  · exact Bool.noConfusion hf
  · rw [hg, dictGet_dictUpdate_self]

/-- C4 witness: input `[X (root), Z (obsolete)]` with both sentinel keys
`"K"`; the obsolete set `{Z}` is non-empty and the shared key ends up
holding exactly the root set `{X}`. -/
theorem sentinel_collision_roots_win_witness :
    dictGet [((some "K" : Option String), ["X"])] (some "K")
      = some (rootsOf true [termX, termZ]) :=
  sentinel_collision_roots_win [termX, termZ] true (some "K") _ (by decide)

/-- C5 counterexample: with terms `[X (root), Y (child of X)]` and sentinel
injection enabled on the shared key `"X"`, the returned mapping's entry for
the parent key `"X"` is the injected frozen root set `["X"]`, which no
longer contains the successor key `"Y"` recorded for the edge X→Y, so the
edge-completeness claim fails as stated. -/
theorem edge_lost_to_sentinel_counterexample :
    godag_as_graph [termX, termY] true (some "X") (some "X") true
      = some [(some "X", ["X"])] ∧
    identifier true termY ∉ dictGetD [((some "X" : Option String), ["X"])]
      (some (identifier true termX)) := by
  exact ⟨by decide, by decide⟩

/-- C5 amended: for every term T with parent P, whenever `godag_as_graph`
returns a mapping, the entry under P's key contains T's key, provided that
sentinel injection (when enabled) does not write to P's key; and under the
same proviso every successor present under any key arises from exactly
such an edge (each edge contributes only T's key, and only to P's entry). -/
theorem edge_completeness_amended (obo : List GOTerm) (use_id : Bool)
    (obsoletes_key roots_key : Option String) (use_special_key : Bool) (g : Graph)
    (h : godag_as_graph obo use_id obsoletes_key roots_key use_special_key = some g) :
    (∀ T ∈ obo, ∀ P ∈ T.parents,
        (use_special_key = true → obsoletes_key ≠ some (identifier use_id P) ∧
          roots_key ≠ some (identifier use_id P)) →
        identifier use_id T ∈ dictGetD g (some (identifier use_id P))) ∧
    (∀ k : Option String,
        (use_special_key = true → obsoletes_key ≠ k ∧ roots_key ≠ k) →
        ∀ y ∈ dictGetD g k, ∃ T ∈ obo, ∃ P ∈ T.parents,
          some (identifier use_id P) = k ∧ y = identifier use_id T) := by
  have key : ∀ k : Option String,
      (use_special_key = true → obsoletes_key ≠ k ∧ roots_key ≠ k) →
      dictGetD g k = dictGetD (buildState use_id obo).1 k := by
    intro k hk
    rcases godag_as_graph_some_shape _ _ _ _ _ _ h with ⟨-, (⟨-, hg⟩ | ⟨husk, -, hg⟩)⟩
    · rw [hg]
    · rcases hk husk with ⟨ho, hr⟩
      rw [hg]
      unfold dictGetD
      rw [dictGet_dictUpdate_ne _ _ _ _ (Ne.symm hr), dictGet_dictUpdate_ne _ _ _ _ (Ne.symm ho)]
  constructor
  · intro T hT P hP hkk
    rw [key _ hkk]
    unfold buildState
    exact (foldl_graph_mem use_id obo _ _ _).mpr (Or.inr ⟨T, hT, P, hP, rfl, rfl⟩)
  · intro k hkk y hy
    rw [key _ hkk] at hy
    unfold buildState at hy
    rcases (foldl_graph_mem use_id obo _ _ _).mp hy with h0 | hw
    · simp [dictGetD, dictGet] at h0
    · exact hw

/-- C5 witness: input `[X, Y (child of X)]` with injection disabled; the
entry for X's key contains Y's key. -/
theorem edge_completeness_amended_witness :
    identifier true termY ∈ dictGetD [((some "X" : Option String), ["Y"])]
      (some (identifier true termX)) :=
  (edge_completeness_amended [termX, termY] true none none false _ (by decide)).1
    termY (by simp) termX (by simp [termY, GOTerm.parents]) (fun hf => nomatch hf)

/-- C10: a term with a non-empty parent set is never classified: one loop
iteration over such a term leaves the obsolete and root sets untouched
(only its parent edges are recorded in the graph component), and
consequently every key in the root or obsolete set computed by
`godag_as_graph` comes from some parentless term of the input. -/
theorem parented_terms_only_edges :
    (∀ (use_id : Bool) (st : Graph × List String × List String) (T : GOTerm),
        T.parents ≠ [] → (processTerm use_id st T).2 = st.2) ∧
    (∀ (use_id : Bool) (obo : List GOTerm) (x : String),
        x ∈ rootsOf use_id obo ∨ x ∈ obsoletesOf use_id obo →
        ∃ T ∈ obo, T.parents = [] ∧ identifier use_id T = x) := by
  constructor
  · exact processTerm_snd_of_parents_ne
  · intro use_id obo x hx
    rcases hx with hx | hx
    · unfold rootsOf buildState at hx
      rcases (foldl_roots_mem use_id obo _ x).mp hx with h0 | ⟨T, hT, hp, -, rfl⟩
      · simp at h0
      · exact ⟨T, hT, hp, rfl⟩
    · unfold obsoletesOf buildState at hx
      rcases (foldl_obsoletes_mem use_id obo _ x).mp hx with h0 | ⟨T, hT, hp, -, rfl⟩
      · simp at h0
      · exact ⟨T, hT, hp, rfl⟩

/-- C10 witness: the loop step over `Y` (which has parent `X`) leaves
empty obsolete and root sets unchanged, and the key `"X"` found in the
root set of `[X, Z]` comes from the parentless term `X`. -/
theorem parented_terms_only_edges_witness :
    (processTerm true (([] : Graph), ([] : List String), ([] : List String)) termY).2
        = (([] : List String), ([] : List String)) ∧
    ∃ T ∈ [termX, termZ], T.parents = [] ∧ identifier true T = "X" :=
  ⟨parented_terms_only_edges.1 true _ termY (by simp [termY, GOTerm.parents]),
   parented_terms_only_edges.2 true [termX, termZ] "X" (Or.inl (by decide))⟩

/-! ### Name-lookup builder characterization -/

theorem dictGet_eq_none_iff {κ α : Type} [DecidableEq κ] (g : List (κ × α)) (k : κ) :
    dictGet g k = none ↔ k ∉ g.map Prod.fst := by
  induction g with
  | nil => simp [dictGet]
  | cons p rest ih =>
      by_cases hp : p.1 = k
      · simp [dictGet, hp]
      · simp [dictGet, hp, ih, Ne.symm hp]

theorem map_fst_dictUpdate_of_isSome {κ α : Type} [DecidableEq κ]
    (g : List (κ × α)) (k : κ) (v : α) (h : (dictGet g k).isSome) :
    (dictUpdate g k v).map Prod.fst = g.map Prod.fst := by
  induction g with
  | nil => simp [dictGet] at h
  | cons p rest ih =>
      by_cases hp : p.1 = k
      · simp [dictUpdate, hp]
      · have h' : (dictGet rest k).isSome := by simpa [dictGet, hp] using h
        simp [dictUpdate, hp, ih h']

theorem dictUpdate_eq_append_of_none {κ α : Type} [DecidableEq κ]
    (g : List (κ × α)) (k : κ) (v : α) (h : dictGet g k = none) :
    dictUpdate g k v = g ++ [(k, v)] := by
  induction g with
  | nil => simp [dictUpdate]
  | cons p rest ih =>
      have hp : ¬p.1 = k := by
        intro hp
        simp [dictGet, hp] at h
      have h' : dictGet rest k = none := by simpa [dictGet, hp] using h
      simp [dictUpdate, hp, ih h']

theorem idname_lookup (l : List GOTerm) :
    ∀ (st : List (String × String) × Nat) (id : String),
      dictGet (l.foldl idnameStep st).1 id
        = ((l.reverse.find? (fun t => t.id == id)).map GOTerm.name).or (dictGet st.1 id) := by
  induction l with
  | nil => intro st id; simp
  | cons a l ih =>
      intro st id
      rw [List.foldl_cons, ih]
      have hstep : dictGet (idnameStep st a).1 id
          = if id = a.id then some a.name else dictGet st.1 id := by
        show dictGet (dictUpdate st.1 a.id a.name) id = _
        by_cases hid : id = a.id
        · rw [if_pos hid, hid, dictGet_dictUpdate_self]
        · rw [if_neg hid, dictGet_dictUpdate_ne _ _ _ _ hid]
      rw [hstep, List.reverse_cons, List.find?_append]
      cases hfind : List.find? (fun t => t.id == id) l.reverse with
      | some t => simp
      | none =>
          by_cases hid : id = a.id
          · have hb : (a.id == id) = true := by simp [hid]
            simp [List.find?, hb, hid]
          · have hb : (a.id == id) = false :=
              beq_eq_false_iff_ne.mpr (fun hh => hid hh.symm)
            simp [List.find?, hb, hid]

theorem idname_count (l : List GOTerm) :
    ∀ st : List (String × String) × Nat,
      (l.foldl idnameStep st).2 + (l.foldl idnameStep st).1.length
        = st.2 + st.1.length + l.length := by
  induction l with
  | nil => intro st; simp
  | cons a l ih =>
      intro st
      rw [List.foldl_cons, ih]
      have hlen : (idnameStep st a).2 + (idnameStep st a).1.length
          = st.2 + st.1.length + 1 := by
        by_cases h : (dictGet st.1 a.id).isSome
        · have hl : (dictUpdate st.1 a.id a.name).length = st.1.length := by
            have hm := map_fst_dictUpdate_of_isSome st.1 a.id a.name h
            calc (dictUpdate st.1 a.id a.name).length
                = ((dictUpdate st.1 a.id a.name).map Prod.fst).length :=
                  (List.length_map _ _).symm
              _ = (st.1.map Prod.fst).length := by rw [hm]
              _ = st.1.length := List.length_map _ _
          simp [idnameStep, h, hl]
          omega
        · have hn : dictGet st.1 a.id = none := Option.not_isSome_iff_eq_none.mp h
          simp [idnameStep, h, dictUpdate_eq_append_of_none _ _ _ hn]
          omega
      rw [hlen]
      simp
      omega

theorem idname_keys_mem (l : List GOTerm) :
    ∀ (st : List (String × String) × Nat) (k : String),
      k ∈ (l.foldl idnameStep st).1.map Prod.fst ↔
        k ∈ st.1.map Prod.fst ∨ k ∈ l.map GOTerm.id := by
  induction l with
  | nil => simp
  | cons a l ih =>
      intro st k
      rw [List.foldl_cons, ih]
      have hstep : k ∈ (idnameStep st a).1.map Prod.fst ↔
          k ∈ st.1.map Prod.fst ∨ k = a.id := by
        show k ∈ (dictUpdate st.1 a.id a.name).map Prod.fst ↔ _
        by_cases h : (dictGet st.1 a.id).isSome
        · rw [map_fst_dictUpdate_of_isSome _ _ _ h]
          constructor
          · exact Or.inl
          · rintro (hk | rfl)
            · exact hk
            · have hne : dictGet st.1 a.id ≠ none := Option.isSome_iff_ne_none.mp h
              exact not_not.mp (mt (dictGet_eq_none_iff st.1 a.id).mpr hne)
        · have hn : dictGet st.1 a.id = none := Option.not_isSome_iff_eq_none.mp h
          rw [dictUpdate_eq_append_of_none _ _ _ hn]
          simp
      rw [hstep]
      simp only [List.map_cons, List.mem_cons]
      tauto

theorem idname_keys_nodup (l : List GOTerm) :
    ∀ st : List (String × String) × Nat,
      (st.1.map Prod.fst).Nodup → ((l.foldl idnameStep st).1.map Prod.fst).Nodup := by
  induction l with
  | nil => intro st h; exact h
  | cons a l ih =>
      intro st h
      rw [List.foldl_cons]
      apply ih
      show ((dictUpdate st.1 a.id a.name).map Prod.fst).Nodup
      by_cases hs : (dictGet st.1 a.id).isSome
      · rw [map_fst_dictUpdate_of_isSome _ _ _ hs]
        exact h
      · have hn : dictGet st.1 a.id = none := Option.not_isSome_iff_eq_none.mp hs
        have hmem : a.id ∉ st.1.map Prod.fst := (dictGet_eq_none_iff _ _).mp hn
        rw [dictUpdate_eq_append_of_none _ _ _ hn, List.map_append]
        simp [List.nodup_append, h, hmem]

/-- C6: `godag_as_idname` implements last-write-wins on identifier
collision.  For every successful call, the returned mapping holds, for
each identifier, the name of the last input record bearing it, and the
doublon counter plus the number of distinct identifiers equals the number
of records (i.e. the counter counts exactly the records whose identifier
was already present). -/
theorem idname_last_write_wins (obo : List GOTerm)
    (m : List (String × String)) (d : Nat)
    (h : godag_as_idname obo = some (m, d)) :
    (∀ id : String, dictGet m id
        = (obo.reverse.find? (fun t => t.id == id)).map GOTerm.name) ∧
    d + ((obo.map GOTerm.id).dedup).length = obo.length := by
  have hmd : (obo.foldl idnameStep ([], 0)).1 = m ∧ (obo.foldl idnameStep ([], 0)).2 = d := by
    simp only [godag_as_idname] at h
    split at h
    · exact absurd h (by simp)
    · split at h
      · have h' : obo.foldl idnameStep ([], 0) = (m, d) := by
          injection h
        exact ⟨congrArg Prod.fst h', congrArg Prod.snd h'⟩
      · exact absurd h (by simp)
  obtain ⟨hm, hd⟩ := hmd
  constructor
  · intro id
    rw [← hm, idname_lookup obo ([], 0) id]
    simp [dictGet]
  · have hcount := idname_count obo (([], 0))
    have hnodup := idname_keys_nodup obo (([], 0)) (by simp)
    have hmem : ∀ k : String,
        k ∈ (obo.foldl idnameStep ([], 0)).1.map Prod.fst ↔
          k ∈ (obo.map GOTerm.id).dedup := by
      intro k
      rw [idname_keys_mem]
      simp [List.mem_dedup]
    have hperm : List.Perm ((obo.foldl idnameStep ([], 0)).1.map Prod.fst)
        ((obo.map GOTerm.id).dedup) :=
      (List.perm_ext_iff_of_nodup hnodup (List.nodup_dedup _)).mpr hmem
    have hlen : (obo.foldl idnameStep ([], 0)).1.length
        = ((obo.map GOTerm.id).dedup).length := by
      calc (obo.foldl idnameStep ([], 0)).1.length
          = ((obo.foldl idnameStep ([], 0)).1.map Prod.fst).length :=
            (List.length_map _ _).symm
        _ = ((obo.map GOTerm.id).dedup).length := hperm.length_eq
    simp only [List.length_nil] at hcount
    omega

/-- C6 witness (Scenario D): records `[{id:"G1",name:"alpha"},
{id:"G1",name:"beta"}]` yield the mapping `{"G1":"beta"}` with
doublonCount = 1. -/
theorem idname_last_write_wins_witness :
    dictGet [("G1", "beta")] "G1"
      = (([termG1a, termG1b].reverse.find? (fun t => t.id == "G1")).map GOTerm.name) ∧
    1 + (([termG1a, termG1b].map GOTerm.id).dedup).length = 2 := by
  have h := idname_last_write_wins [termG1a, termG1b] [("G1", "beta")] 1 (by decide)
  exact ⟨h.1 "G1", h.2⟩

/-! ### JSON serialization -/

/-- Minimal JSON value model for the shapes the program writes: strings,
arrays and objects. -/
inductive Json where
  | str (s : String)
  | arr (elems : List Json)
  | obj (fields : List (String × Json))

/-- Embedding of `json_serializable_graph` (src lines 91-94): the dict
comprehension keeps every key and converts each successor set to a tuple.
Sets are modeled as duplicate-free lists, so the tuple conversion is the
identity enumeration of the set. -/
def json_serializable_graph (graph : List (String × List String)) :
    List (String × List String) :=
  graph.map (fun p => (p.1, p.2))

/-- The JSON value `json.dump` writes for a mapping whose values are
sequences of strings: an object of arrays of strings. -/
def encodeGraph (data : List (String × List String)) : Json :=
  .obj (data.map (fun p => (p.1, .arr (p.2.map Json.str))))

/-- Embedding of `graph_as_json` (src lines 97-105) on the set-valued path
(`multiple_succs=True`): convert the sets to tuples and dump as JSON.  The
JSON value produced (rather than its character stream, which is the
external json library's concern) is returned. -/
def graph_as_json (data : List (String × List String)) : Json :=
  encodeGraph (json_serializable_graph data)

/-- Models the external JSON decoder on a single string value. -/
def decodeString : Json → Option String
  | .str s => some s
  | _ => none

/-- Models the external JSON decoder on arrays of strings. -/
def decodeStrings : List Json → Option (List String)
  | [] => some []
  | j :: rest =>
    (decodeString j).bind (fun s => (decodeStrings rest).map (fun r => s :: r))

/-- Models the external JSON decoder on an array-of-strings value. -/
def decodeStringArray : Json → Option (List String)
  | .arr es => decodeStrings es
  | _ => none

/-- Models the external JSON decoder on the fields of an adjacency
object. -/
def decodeFields : List (String × Json) → Option (List (String × List String))
  | [] => some []
  | p :: rest =>
    (decodeStringArray p.2).bind
      (fun v => (decodeFields rest).map (fun r => (p.1, v) :: r))

/-- Models the external JSON decoder (`json.load`) for the
object-of-arrays-of-strings shape written by `graph_as_json`. -/
def decodeGraph : Json → Option (List (String × List String))
  | .obj fs => decodeFields fs
  | _ => none

theorem decodeStrings_map_str (l : List String) :
    decodeStrings (l.map Json.str) = some l := by
  induction l with
  | nil => rfl
  | cons s l ih => simp [decodeStrings, decodeString, ih]

theorem decodeFields_encode (m : List (String × List String)) :
    decodeFields (m.map (fun p => (p.1, Json.arr (p.2.map Json.str)))) = some m := by
  induction m with
  | nil => rfl
  | cons p m ih => simp [decodeFields, decodeStringArray, ih, decodeStrings_map_str]

/-- C7: decoding the JSON written by `graph_as_json` recovers, for every
key of the original mapping, a sequence whose elements equal the original
successor set (here literally, hence in particular as sets,
order-insensitively), with no keys added or removed. -/
theorem json_round_trip (g : List (String × List String)) :
    decodeGraph (graph_as_json g) = some (json_serializable_graph g) ∧
    (json_serializable_graph g).map Prod.fst = g.map Prod.fst ∧
    ∀ k : String, dictGet (json_serializable_graph g) k = dictGet g k := by
  have hid : json_serializable_graph g = g := by
    simp [json_serializable_graph]
  refine ⟨?_, by rw [hid], fun k => by rw [hid]⟩
  show decodeGraph (encodeGraph (json_serializable_graph g)) = _
  rw [hid]
  simp [encodeGraph, decodeGraph, decodeFields_encode]

/-! ### DSV serialization -/

/-- Python `'\t'.join(succs)` (src line 118). -/
def tabJoin : List String → String
  | [] => ""
  | [s] => s
  | s :: rest => s ++ "\t" ++ tabJoin rest

/-- Embedding of `graph_as_dsv` (src lines 108-119) with
`multiple_succs=True`: the file content is the accumulation of one
`'{}\t{}\n'.format(pred, succs)` write per entry, where `succs` is the
tab-join of the successor sequence. -/
def graph_as_dsv (data : List (String × List String)) : String :=
  data.foldl (fun fd p => fd ++ (p.1 ++ "\t" ++ tabJoin p.2 ++ "\n")) ""

/-- Embedding of `graph_as_dsv` with `multiple_succs=False`: the value is
a plain string and is written as is. -/
def graph_as_dsv_single (data : List (String × String)) : String :=
  data.foldl (fun fd p => fd ++ (p.1 ++ "\t" ++ p.2 ++ "\n")) ""

/-- Number of newline characters in a string. -/
def countNewlines (s : String) : Nat :=
  s.toList.count (Char.ofNat 10)

theorem foldl_string_append (l : List String) :
    ∀ a : String, l.foldl (fun r s => r ++ s) a = a ++ String.join l := by
  induction l with
  | nil =>
      intro a
      show a = a ++ String.join []
      rw [show String.join [] = "" from rfl, String.append_empty]
  | cons s l ih =>
      intro a
      rw [List.foldl_cons, ih]
      have hj : String.join (s :: l) = s ++ String.join l := by
        show List.foldl (fun r t => r ++ t) ("" ++ s) l = _
        rw [String.empty_append, ih]
      rw [hj, String.append_assoc]

theorem graph_as_dsv_join (data : List (String × List String)) :
    graph_as_dsv data
      = String.join (data.map (fun p => p.1 ++ "\t" ++ tabJoin p.2 ++ "\n")) := by
  unfold graph_as_dsv String.join
  rw [List.foldl_map]

theorem graph_as_dsv_single_join (data : List (String × String)) :
    graph_as_dsv_single data
      = String.join (data.map (fun p => p.1 ++ "\t" ++ p.2 ++ "\n")) := by
  unfold graph_as_dsv_single String.join
  rw [List.foldl_map]

theorem countNewlines_append (s t : String) :
    countNewlines (s ++ t) = countNewlines s + countNewlines t := by
  simp [countNewlines, String.toList, List.count_append]

theorem countNewlines_join (l : List String) :
    countNewlines (String.join l) = (l.map countNewlines).sum := by
  induction l with
  | nil => rfl
  | cons s l ih =>
      have hj : String.join (s :: l) = s ++ String.join l := by
        show List.foldl (fun r t => r ++ t) ("" ++ s) l = _
        rw [String.empty_append, foldl_string_append]
      rw [hj, countNewlines_append, ih]
      simp

theorem countNewlines_tabJoin (l : List String)
    (h : ∀ s ∈ l, countNewlines s = 0) : countNewlines (tabJoin l) = 0 := by
  induction l with
  | nil => rfl
  | cons s rest ih =>
      cases rest with
      | nil => exact h s (by simp)
      | cons t rest2 =>
          rw [show tabJoin (s :: t :: rest2) = s ++ "\t" ++ tabJoin (t :: rest2) from rfl,
              countNewlines_append, countNewlines_append,
              h s (by simp), ih (fun x hx => h x (List.mem_cons_of_mem _ hx))]
          decide

/-- C8: the DSV writer emits, for each key in order, exactly the line
`key TAB cell NEWLINE` where the cell is the tab-joined successor list
(multi-valued mode) or the plain string value (single-valued mode); under
newline-free keys and values the output has exactly one line per key; and
tabs or newlines embedded in keys or values are copied verbatim, without
any escaping (last conjunct exhibits this). -/
theorem dsv_line_format :
    (∀ data : List (String × List String),
        graph_as_dsv data
          = String.join (data.map (fun p => p.1 ++ "\t" ++ tabJoin p.2 ++ "\n"))) ∧
    (∀ data : List (String × String),
        graph_as_dsv_single data
          = String.join (data.map (fun p => p.1 ++ "\t" ++ p.2 ++ "\n"))) ∧
    (∀ data : List (String × List String),
        (∀ p ∈ data, countNewlines p.1 = 0 ∧ ∀ s ∈ p.2, countNewlines s = 0) →
        countNewlines (graph_as_dsv data) = data.length) ∧
    graph_as_dsv [("a\tb", ["c", "d\ne"])] = "a\tb\tc\td\ne\n" := by
  refine ⟨graph_as_dsv_join, graph_as_dsv_single_join, ?_, by decide⟩
  intro data
  induction data with
  | nil => intro h; rfl
  | cons p data ih =>
      intro h
      rw [graph_as_dsv_join, countNewlines_join, List.map_cons, List.map_cons,
          List.sum_cons]
      have h1 : countNewlines (p.1 ++ "\t" ++ tabJoin p.2 ++ "\n") = 1 := by
        rcases h p (by simp) with ⟨hk, hv⟩
        rw [countNewlines_append, countNewlines_append, countNewlines_append,
            hk, countNewlines_tabJoin p.2 hv]
        decide
      have h2 := ih (fun q hq => h q (List.mem_cons_of_mem _ hq))
      rw [graph_as_dsv_join, countNewlines_join] at h2
      rw [h1, h2]
      simp only [List.length_cons]
      omega

/-- C8 witness: a one-entry mapping with newline-free key and values
produces exactly one line. -/
theorem dsv_line_format_witness :
    countNewlines (graph_as_dsv [("A", ["B", "C"])]) = 1 :=
  dsv_line_format.2.2.1 [("A", ["B", "C"])] (by decide)
